import Mathlib

/-!
Verification development for the `Thesis` repository
(`Software/geras/bayesian_network.py` and `Software/texW2V/lstm.py`).

The Python scripts are embedded shallowly:

* label vectors are `List Nat` (the scripts only ever produce labels 0/1);
* `sklearn.metrics.confusion_matrix` is embedded following its documented
  semantics: the label axis is the sorted list of distinct values occurring
  in `y_true ++ y_pred`, and entry `(i, j)` counts samples whose true label
  is the `i`-th axis value and whose predicted label is the `j`-th;
* numpy true division is embedded by `npDiv`, where `none` models the NaN
  produced (with a runtime warning) by a `0 / 0` division;
* the Python tuple unpacking `tn, fp, fn, tp = cm.ravel()` raises a
  `ValueError` unless the raveled matrix has exactly four entries; this is
  modelled by `evaluate_sen_spec` returning `none` in that case;
* pandas dataframes are embedded as ordered association lists from column
  names to cell lists, a cell being `Option String` (`none` models a
  missing value / NaN, which compares unequal to every string).
-/

/-- Sorted list of the distinct label values occurring in either vector:
the label axis used by `sklearn.metrics.confusion_matrix`. -/
def sortedLabels (y_true y_pred : List Nat) : List Nat :=
  List.insertionSort (· ≤ ·) (y_true ++ y_pred).dedup

/-- Number of (true, predicted) pairs equal to `(a, b)`. -/
def cmCount (pairs : List (Nat × Nat)) (a b : Nat) : Nat :=
  pairs.countP (fun p => decide (p.1 = a ∧ p.2 = b))

/-- Embedding of `sklearn.metrics.confusion_matrix(y_true, y_pred)`:
row `i`, column `j` counts samples with true label `labels[i]` and
predicted label `labels[j]`, where `labels` is the sorted list of
distinct values in the union of the two vectors. -/
def confusion_matrix (y_true y_pred : List Nat) : List (List Nat) :=
  (sortedLabels y_true y_pred).map (fun a =>
    (sortedLabels y_true y_pred).map (fun b =>
      cmCount (y_true.zip y_pred) a b))

/-- Embedding of `numpy.ndarray.ravel` on a matrix: row-major flattening. -/
def ravel (m : List (List Nat)) : List Nat :=
  m.flatten

/-- Numpy true division on the non-negative confusion counts appearing in
`evaluate_sen_spec`: `none` models the NaN result of `0 / 0` (numpy emits a
runtime warning and yields NaN; the numerator is always at most the
denominator here, so a zero denominator forces a zero numerator). -/
def npDiv (a b : Nat) : Option ℚ :=
  if b = 0 then none else some ((a : ℚ) / (b : ℚ))

/-- Result record of `evaluate_sen_spec`: the four unpacked confusion
counts and the two printed ratios. -/
structure SenSpecResult where
  tn : Nat
  fp : Nat
  fn : Nat
  tp : Nat
  specificity : Option ℚ
  sensitivity : Option ℚ
deriving DecidableEq, Repr

/-- Embedding of `evaluate_sen_spec` (bayesian_network.py, lines 121-134):
`tn, fp, fn, tp = confusion_matrix(y_true, y_pred).ravel()` followed by
`specificity = tn / (tn + fp)` and `sensitivity = tp / (tp + fn)`.
The four-way unpacking raises `ValueError` unless the raveled matrix has
exactly four entries; that failure is modelled by `none`. -/
def evaluate_sen_spec (y_true y_pred : List Nat) : Option SenSpecResult :=
  match ravel (confusion_matrix y_true y_pred) with
  | [tn, fp, fn, tp] =>
      some ⟨tn, fp, fn, tp, npDiv tn (tn + fp), npDiv tp (tp + fn)⟩
  | _ => none

/-- Modelled from the spec: `model.score(x, y)` of sklearn (used by
`evaluate_accuracy`) is the accuracy ratio, correct predictions over total;
the sklearn scoring internals are library code not present in the
repository. -/
def accuracy_score (y_true y_pred : List Nat) : ℚ :=
  (((y_true.zip y_pred).countP (fun p => decide (p.1 = p.2)) : ℚ)) /
    ((y_true.length : ℚ))

/-- Cell of a dataframe column: `none` models a missing value (NaN), which
compares unequal to every string. -/
abbrev Cell := Option String

/-- Embedding of a pandas dataframe: ordered association list from column
names to cell columns. -/
structure DataFrame where
  cols : List (String × List Cell)
deriving DecidableEq, Repr

/-- Column lookup, `df[name]`; `none` models the `KeyError` raised when the
column is absent. -/
def getCol (df : DataFrame) (name : String) : Option (List Cell) :=
  (df.cols.find? (fun c => decide (c.1 = name))).map (fun c => c.2)

/-- Embedding of `df.drop(columns=names)`: removes every column whose name
is listed; `none` models the `KeyError` pandas raises when one of the
requested names is absent. -/
def dropCols (df : DataFrame) (names : List String) : Option DataFrame :=
  if names.all (fun n => df.cols.any (fun c => decide (c.1 = n))) then
    some ⟨df.cols.filter (fun c => decide (c.1 ∉ names))⟩
  else none

/-- Embedding of the label mapping in `split_dataframe`:
`lambda x : 1 if x == 'Y' else 0`. A missing value (`none`) compares
unequal to `'Y'` and is therefore sent to 0, like every non-`'Y'` cell. -/
def mapLabel (x : Cell) : Nat :=
  if x = some "Y" then 1 else 0

/-- Embedding of `split_dataframe` (bayesian_network.py, lines 30-48):
maps the `dementia` column of each dataframe through the label lambda and
drops `dementia`, `pauses`, `retracing_reform` from each to form the
feature tables. Returns `(x, y, x_test, y_test)`; `none` models a pandas
`KeyError` on a missing column. -/
def split_dataframe (df df_test : DataFrame) :
    Option (DataFrame × List Nat × DataFrame × List Nat) :=
  match getCol df "dementia" with
  | none => none
  | some ycol =>
    match dropCols df ["dementia", "pauses", "retracing_reform"] with
    | none => none
    | some x =>
      match getCol df_test "dementia" with
      | none => none
      | some ytcol =>
        match dropCols df_test ["dementia", "pauses", "retracing_reform"] with
        | none => none
        | some x_test =>
          some (x, ycol.map mapLabel, x_test, ytcol.map mapLabel)

/-- Modelled from the spec: one step of the deterministic pseudo-random
generator driving the seeded shuffle (sklearn's internals are library code
not present in the repository; the spec only requires a
deterministic-seeded shuffle). -/
def lcgNext (s : Nat) : Nat :=
  (1103515245 * s + 12345) % 2 ^ 31

/-- Comparison of index/key pairs by key, used to realise the seeded
shuffle as a sort by pseudo-random keys. -/
def byKey (a b : Nat × Nat) : Prop :=
  a.1 ≤ b.1

instance : DecidableRel byKey :=
  fun a b => Nat.decLe a.1 b.1

/-- Modelled from the spec: the deterministic seeded shuffle of the row
indices `0, …, n-1` — each index is paired with a pseudo-random key
derived from the seed and the indices are sorted by key. -/
def shuffled (seed n : Nat) : List Nat :=
  (List.insertionSort byKey
    ((List.range n).map (fun i => (lcgNext^[i + 1] seed, i)))).map
    (fun p => p.2)

/-- Start of the `i`-th test chunk: the first `n % k` folds get one extra
row, as in sklearn's `KFold`. -/
def foldStart (n k i : Nat) : Nat :=
  i * (n / k) + min i (n % k)

/-- Size of the `i`-th test chunk. -/
def foldSize (n k i : Nat) : Nat :=
  n / k + if i < n % k then 1 else 0

/-- Modelled from the spec: `KFold(n_splits=k, random_state=seed,
shuffle=True).split` — partitions the row indices into `k` roughly equal
groups after a seeded shuffle; for each fold, that group is the validation
subset and all remaining indices form the training subset (both emitted in
ascending index order, as sklearn applies the fold mask to `arange(n)`). -/
def kfold_split (seed k n : Nat) : List (List Nat × List Nat) :=
  let order := shuffled seed n
  (List.range k).map (fun i =>
    let test := (order.drop (foldStart n k i)).take (foldSize n k i)
    ((List.range n).filter (fun j => decide (j ∉ test)),
     (List.range n).filter (fun j => decide (j ∈ test))))

/-- Row selection `x.loc[idx]` for a default integer index. -/
def loc {α : Type} (x : List α) (idx : List Nat) : List α :=
  idx.filterMap (fun i => x[i]?)

/-- Componentwise sum of a list of feature rows. -/
def sumRows : List (List ℚ) → List ℚ
  | [] => []
  | [r] => r
  | r :: rs => List.zipWith (· + ·) r (sumRows rs)

/-- Fitted state of the Gaussian Naive Bayes classifier: the classes seen
in the training labels with their counts and per-feature means. -/
structure GNBModel where
  classes : List Nat
  class_count : List Nat
  theta : List (List ℚ)
deriving DecidableEq, Repr

/-- Modelled from the spec: `GaussianNB.fit(x, y)` estimates the model
parameters solely from the given training subset, discarding any
previously fitted state (the spec: parameters are overwritten on each fit
call). The sklearn estimation internals are library code not present in
the repository; classes, their counts and per-feature means are computed
here. -/
def GaussianNB_fit (x : List (List ℚ)) (y : List Nat) : GNBModel :=
  let classes := List.insertionSort (· ≤ ·) y.dedup
  ⟨classes,
   classes.map (fun c => y.count c),
   classes.map (fun c =>
     let rows := ((x.zip y).filter (fun p => decide (p.2 = c))).map
       (fun p => p.1)
     (sumRows rows).map (fun s => s / (rows.length : ℚ)))⟩

/-- One iteration of the `for train_index, val_index in kfold.split(x)`
loop body: `model.fit(x_train, y_train)` overwrites the classifier state
(the accumulator's model component is ignored); the counter records one
fit call. -/
def kfstep (x : List (List ℚ)) (y : List Nat)
    (acc : Option GNBModel × Nat) (fold : List Nat × List Nat) :
    Option GNBModel × Nat :=
  (some (GaussianNB_fit (loc x fold.1) (loc y fold.1)), acc.2 + 1)

/-- The cross-validation loop of `do_kfold_validation` over a given fold
list, starting from the freshly constructed (unfitted) classifier; returns
the final classifier state and the number of fit calls. -/
def kfold_fit_loop (x : List (List ℚ)) (y : List Nat)
    (folds : List (List Nat × List Nat)) : Option GNBModel × Nat :=
  folds.foldl (kfstep x y) (none, 0)

/-- Embedding of `do_kfold_validation` (bayesian_network.py, lines 51-76):
`KFold(n_splits=5, random_state=9, shuffle=True)`, one `GaussianNB()`
instance, and a loop refitting that instance on each fold's training
portion. The model component of the result is what `evaluate_accuracy`
subsequently uses for all scoring and prediction. -/
def do_kfold_validation (x : List (List ℚ)) (y : List Nat) :
    Option GNBModel × Nat :=
  kfold_fit_loop x y (kfold_split 9 5 x.length)

/-- Concrete five-row feature table used to instantiate the k-fold
theorems. -/
def C2wx : List (List ℚ) :=
  [[0], [1], [2], [3], [4]]

/-- Concrete label vector accompanying `C2wx`. -/
def C2wy : List Nat :=
  [0, 1, 0, 1, 1]

/-- Concrete four-column train table used to instantiate the
`split_dataframe` theorems. -/
def C7df : DataFrame :=
  ⟨[("dementia", [some "Y", some "N"]), ("pauses", [none, none]),
    ("retracing_reform", [none, none]), ("age", [some "70", some "65"])]⟩

/-- Concrete four-column test table accompanying `C7df`. -/
def C7dft : DataFrame :=
  ⟨[("dementia", [some "N"]), ("pauses", [none]),
    ("retracing_reform", [none]), ("age", [some "80"])]⟩

/-- Layer description of the Keras feed-forward network. -/
inductive KLayer where
  | dense (units : Nat) (input_dim : Option Nat) (activation : String)
  | dropout (rate : ℚ)
deriving DecidableEq, Repr

/-- Configuration state of a Keras `Sequential` model: the ordered layer
stack and the compile arguments. -/
structure KerasModel where
  layers : List KLayer
  loss : Option String
  optimizer : Option String
  metrics : List String
deriving DecidableEq, Repr

namespace texW2V

/-- The freshly constructed `Sequential()` model. -/
def Sequential : KerasModel :=
  ⟨[], none, none, []⟩

/-- `model.add(layer)`: appends a layer to the stack. -/
def add (m : KerasModel) (l : KLayer) : KerasModel :=
  ⟨m.layers ++ [l], m.loss, m.optimizer, m.metrics⟩

/-- `model.compile(loss=..., optimizer=..., metrics=...)`. -/
def compile (m : KerasModel) (loss optimizer : String)
    (metrics : List String) : KerasModel :=
  ⟨m.layers, some loss, some optimizer, metrics⟩

/-- Configuration of a Keras `EarlyStopping` callback. -/
structure EarlyStoppingCfg where
  monitor : String
  patience : Nat
deriving DecidableEq, Repr

/-- Embedding of `es = EarlyStopping(monitor='val_loss', patience=40)`
(lstm.py, line 19). -/
def es : EarlyStoppingCfg :=
  ⟨"val_loss", 40⟩

/-- Arguments of a `model.fit` call. -/
structure FitCall where
  validation_split : ℚ
  epochs : Nat
  batch_size : Nat
  callbacks : List EarlyStoppingCfg
deriving DecidableEq, Repr

/-- Embedding of the model construction and compilation (lstm.py, lines
7-16): the exact sequence of `add` calls followed by `compile`. -/
def model : KerasModel :=
  compile
    (add (add (add (add (add (add (add Sequential
      (KLayer.dense 24 (some 24) "relu"))
      (KLayer.dropout 0.2))
      (KLayer.dense 12 none "relu"))
      (KLayer.dropout 0.2))
      (KLayer.dense 8 none "relu"))
      (KLayer.dropout 0.2))
      (KLayer.dense 1 none "sigmoid"))
    "binary_crossentropy" "adam" ["accuracy"]

/-- Embedding of the training call (lstm.py, line 20):
`model.fit(x_train, y_train, validation_split=0.2, epochs=1000,
batch_size=10, callbacks=[es])`. -/
def fit_call : FitCall :=
  ⟨0.2, 1000, 10, [es]⟩

end texW2V

/-- Number of fit calls performed by the cross-validation loop: one per
fold, whatever the starting accumulator. -/
theorem foldl_kfstep_snd (x : List (List ℚ)) (y : List Nat) :
    ∀ (folds : List (List Nat × List Nat)) (acc : Option GNBModel × Nat),
      (folds.foldl (kfstep x y) acc).2 = acc.2 + folds.length := by
  intro folds
  induction folds with
  | nil => intro acc; simp
  | cons f fs ih =>
      intro acc
      simp only [List.foldl_cons, ih, kfstep, List.length_cons]
      omega

/-- The fold list always has exactly 5 entries (one per requested split). -/
theorem kfold_split_length (seed k n : Nat) :
    (kfold_split seed k n).length = k := by
  simp [kfold_split]

/-- C2: with the 5-fold split, the loop performs exactly 5 fit calls, each
overwriting the classifier state, and the model handed to
`evaluate_accuracy` is exactly the fit on the last fold's training portion
— identical to what a run on the last fold alone would produce, with no
contribution from the earlier folds and no fold selection. -/
theorem C2_last_fold_wins (x : List (List ℚ)) (y : List Nat)
    (fs : List (List Nat × List Nat)) (f : List Nat × List Nat)
    (hf : kfold_split 9 5 x.length = fs ++ [f]) :
    (do_kfold_validation x y).1 =
      some (GaussianNB_fit (loc x f.1) (loc y f.1)) ∧
    (do_kfold_validation x y).1 = (kfold_fit_loop x y [f]).1 ∧
    (do_kfold_validation x y).2 = 5 := by
  have hlen : fs.length + 1 = 5 := by
    have h5 := kfold_split_length 9 5 x.length
    rw [hf] at h5
    simpa using h5
  refine ⟨?_, ?_, ?_⟩
  · rw [do_kfold_validation, kfold_fit_loop, hf, List.foldl_append]
    simp [kfstep]
  · rw [do_kfold_validation, kfold_fit_loop, hf, List.foldl_append]
    simp [kfstep, kfold_fit_loop]
  · rw [do_kfold_validation, kfold_fit_loop, foldl_kfstep_snd, hf]
    simp [hlen]

/-- C2 witness: on a concrete five-row table the five folds are as listed,
and the final classifier is the fit on the last fold's training rows. -/
theorem C2_last_fold_wins_witness :
    kfold_split 9 5 C2wx.length =
      [([0, 1, 3, 4], [2]), ([0, 2, 3, 4], [1]), ([0, 1, 2, 4], [3]),
       ([1, 2, 3, 4], [0])] ++ [([0, 1, 2, 3], [4])] ∧
    ((do_kfold_validation C2wx C2wy).1 =
        some (GaussianNB_fit (loc C2wx [0, 1, 2, 3])
          (loc C2wy [0, 1, 2, 3])) ∧
      (do_kfold_validation C2wx C2wy).1 =
        (kfold_fit_loop C2wx C2wy [([0, 1, 2, 3], [4])]).1 ∧
      (do_kfold_validation C2wx C2wy).2 = 5) :=
  ⟨by decide, C2_last_fold_wins C2wx C2wy
    [([0, 1, 3, 4], [2]), ([0, 2, 3, 4], [1]), ([0, 1, 2, 4], [3]),
     ([1, 2, 3, 4], [0])]
    ([0, 1, 2, 3], [4]) (by decide)⟩

/-- C3: fold partitioning with the fixed seed 9 is reproducible — any two
runs on the same input produce identical fold assignments, in the same
order. -/
theorem C3_fold_reproducible (n : Nat)
    (r1 r2 : List (List Nat × List Nat))
    (h1 : r1 = kfold_split 9 5 n) (h2 : r2 = kfold_split 9 5 n) :
    r1 = r2 :=
  h1.trans h2.symm

/-- C3 witness: two runs of the partitioning of 7 rows coincide. -/
theorem C3_fold_reproducible_witness :
    kfold_split 9 5 7 = kfold_split 9 5 7 :=
  C3_fold_reproducible 7 (kfold_split 9 5 7) (kfold_split 9 5 7) rfl rfl

/-- C8: the script builds exactly the architecture
dense 24 (input width 24) → dropout → dense 12 → dropout → dense 8 →
dropout → dense 1 with sigmoid output, compiles it with binary
cross-entropy, and trains with an 80/20 validation split, early stopping
on validation loss with patience 40, at most 1000 epochs, batch size
10. -/
theorem C8_architecture :
    texW2V.model.layers =
      [KLayer.dense 24 (some 24) "relu", KLayer.dropout 0.2,
       KLayer.dense 12 none "relu", KLayer.dropout 0.2,
       KLayer.dense 8 none "relu", KLayer.dropout 0.2,
       KLayer.dense 1 none "sigmoid"] ∧
    texW2V.model.loss = some "binary_crossentropy" ∧
    texW2V.fit_call.validation_split = 1 / 5 ∧
    texW2V.fit_call.epochs = 1000 ∧
    texW2V.fit_call.batch_size = 10 ∧
    texW2V.fit_call.callbacks = [⟨"val_loss", 40⟩] := by
  refine ⟨rfl, rfl, ?_, rfl, rfl, rfl⟩
  norm_num [texW2V.fit_call]

/-- C6: the worked scenario from the spec, evaluated on the embedding. -/
theorem C6_worked_scenario :
    evaluate_sen_spec [1, 1, 1, 1, 0, 0, 0, 0] [1, 1, 0, 1, 0, 0, 1, 0] =
      some ⟨3, 1, 1, 3, some (3 / 4), some (3 / 4)⟩ := by
  have h : ravel (confusion_matrix [1, 1, 1, 1, 0, 0, 0, 0]
      [1, 1, 0, 1, 0, 0, 1, 0]) = [3, 1, 1, 3] := by decide
  rw [evaluate_sen_spec, h]
  norm_num [npDiv]

/-- Sum of a pointwise sum of two maps splits. -/
theorem sum_map_add_nat {α : Type} (f g : α → Nat) (l : List α) :
    (l.map (fun x => f x + g x)).sum = (l.map f).sum + (l.map g).sum := by
  induction l with
  | nil => simp
  | cons a l ih =>
      simp only [List.map_cons, List.sum_cons, ih]
      omega

/-- Summing the indicator of `x` over a list avoiding `x` gives 0. -/
theorem sum_map_ite_zero (x : Nat) (L : List Nat) (h : x ∉ L) :
    (L.map (fun b => if x = b then (1 : Nat) else 0)).sum = 0 := by
  induction L with
  | nil => simp
  | cons a L ih =>
      have hxa : x ≠ a := fun e => h (e ▸ List.mem_cons_self a L)
      have hxL : x ∉ L := fun m => h (List.mem_cons_of_mem a m)
      simp [hxa, ih hxL]

/-- Summing the indicator of `x` over a duplicate-free list containing `x`
gives 1. -/
theorem sum_map_ite_one (x : Nat) (L : List Nat) (hL : L.Nodup)
    (h : x ∈ L) :
    (L.map (fun b => if x = b then (1 : Nat) else 0)).sum = 1 := by
  induction L with
  | nil => simp at h
  | cons a L ih =>
      rcases List.mem_cons.mp h with h1 | h1
      · subst h1
        have hxL : x ∉ L := (List.nodup_cons.mp hL).1
        simp [sum_map_ite_zero x L hxL]
      · have hne : x ≠ a := by
          rintro rfl
          exact (List.nodup_cons.mp hL).1 h1
        simp [hne, ih (List.nodup_cons.mp hL).2 h1]

/-- Summing, over the label axis, the indicator of one sample hitting the
cell `(a, ·)` gives the indicator of the sample's true label being `a`. -/
theorem inner_ite_sum (L : List Nat) (hL : L.Nodup) (yv : Nat)
    (hy : yv ∈ L) (x a : Nat) :
    (L.map (fun b => if x = a ∧ yv = b then (1 : Nat) else 0)).sum =
      if x = a then 1 else 0 := by
  by_cases hxa : x = a
  · subst hxa
    simpa using sum_map_ite_one yv L hL hy
  · simp [hxa]

/-- Each (true, predicted) pair with both components on the label axis is
counted in exactly one cell, so the table of counts sums to the number of
pairs. -/
theorem cm_table_sum (L : List Nat) (hL : L.Nodup) :
    ∀ pairs : List (Nat × Nat),
      (∀ p ∈ pairs, p.1 ∈ L ∧ p.2 ∈ L) →
      (L.map (fun a => (L.map (fun b => cmCount pairs a b)).sum)).sum =
        pairs.length := by
  intro pairs
  induction pairs with
  | nil =>
      intro _
      simp [cmCount]
  | cons p ps ih =>
      intro h
      have hp := h p (List.mem_cons_self p ps)
      have hps : ∀ q ∈ ps, q.1 ∈ L ∧ q.2 ∈ L := fun q hq =>
        h q (List.mem_cons_of_mem p hq)
      have hstep : ∀ a b, cmCount (p :: ps) a b =
          cmCount ps a b + (if p.1 = a ∧ p.2 = b then 1 else 0) := by
        intro a b
        simp [cmCount, List.countP_cons]
      simp only [hstep, sum_map_add_nat]
      rw [ih hps]
      simp only [inner_ite_sum L hL p.2 hp.2 p.1]
      rw [sum_map_ite_one p.1 L hL hp.1]
      simp

/-- The sorted label axis has no duplicates. -/
theorem sortedLabels_nodup (y_true y_pred : List Nat) :
    (sortedLabels y_true y_pred).Nodup :=
  (List.perm_insertionSort _ _).nodup_iff.mpr (List.nodup_dedup _)

/-- Membership in the label axis is membership in either vector. -/
theorem mem_sortedLabels {v : Nat} {y_true y_pred : List Nat} :
    v ∈ sortedLabels y_true y_pred ↔ v ∈ y_true ++ y_pred :=
  ((List.perm_insertionSort _ _).mem_iff).trans (List.mem_dedup)

/-- The raveled confusion matrix always sums to the number of
(true, predicted) pairs. -/
theorem ravel_cm_sum (y_true y_pred : List Nat) :
    (ravel (confusion_matrix y_true y_pred)).sum =
      (y_true.zip y_pred).length := by
  have hmem : ∀ p ∈ y_true.zip y_pred,
      p.1 ∈ sortedLabels y_true y_pred ∧
      p.2 ∈ sortedLabels y_true y_pred := by
    intro p hp
    obtain ⟨a, b⟩ := p
    have hab := List.of_mem_zip hp
    exact ⟨mem_sortedLabels.mpr (List.mem_append.mpr (Or.inl hab.1)),
           mem_sortedLabels.mpr (List.mem_append.mpr (Or.inr hab.2))⟩
  have hsum := cm_table_sum (sortedLabels y_true y_pred)
    (sortedLabels_nodup y_true y_pred) (y_true.zip y_pred) hmem
  rw [ravel, confusion_matrix, List.sum_flatten, List.map_map]
  simpa [Function.comp] using hsum

/-- C4: whenever the four-way unpacking in `evaluate_sen_spec` succeeds on
label vectors of `n` entries each, the four confusion counts satisfy
`tn + fp + fn + tp = n`. -/
theorem C4_counts_sum_to_n (y_true y_pred : List Nat) (n : Nat)
    (h1 : y_true.length = n) (h2 : y_pred.length = n)
    (r : SenSpecResult) (h : evaluate_sen_spec y_true y_pred = some r) :
    r.tn + r.fp + r.fn + r.tp = n := by
  unfold evaluate_sen_spec at h
  split at h
  next tn fp fn tp heq =>
    injection h with h
    have hz := ravel_cm_sum y_true y_pred
    rw [heq] at hz
    rw [List.length_zip, h1, h2, Nat.min_self] at hz
    simp only [List.sum_cons, List.sum_nil] at hz
    subst h
    show tn + fp + fn + tp = n
    omega
  next =>
    simp at h

/-- C4 witness: the invariant instantiated on the spec's worked scenario
(8 samples). -/
theorem C4_counts_sum_to_n_witness :
    evaluate_sen_spec [1, 1, 1, 1, 0, 0, 0, 0] [1, 1, 0, 1, 0, 0, 1, 0] =
      some ⟨3, 1, 1, 3, npDiv 3 4, npDiv 3 4⟩ ∧
    (3 : Nat) + 1 + 1 + 3 = 8 :=
  ⟨rfl, C4_counts_sum_to_n [1, 1, 1, 1, 0, 0, 0, 0]
    [1, 1, 0, 1, 0, 0, 1, 0] 8 rfl rfl
    ⟨3, 1, 1, 3, npDiv 3 4, npDiv 3 4⟩ rfl⟩

/-- Length of the raveled confusion matrix: the square of the number of
distinct labels. -/
theorem ravel_cm_length (y_true y_pred : List Nat) :
    (ravel (confusion_matrix y_true y_pred)).length =
      (sortedLabels y_true y_pred).length *
        (sortedLabels y_true y_pred).length := by
  rw [ravel, confusion_matrix, List.length_flatten, List.map_map]
  simp only [Function.comp_def, List.length_map]
  rw [List.map_const', List.sum_replicate, smul_eq_mul]

/-- The only natural number whose square is 4 is 2. -/
theorem sq_eq_four {l : Nat} (h : l * l = 4) : l = 2 := by
  rcases Nat.lt_or_ge l 3 with hl | hl
  · interval_cases l <;> omega
  · have h9 : 9 ≤ l * l := Nat.mul_le_mul hl hl
    omega

/-- Summing, over the label axis, the indicator of a pair hitting a
diagonal cell gives the indicator of the pair matching. -/
theorem diag_cell_sum (L : List Nat) (hL : L.Nodup) (u v : Nat)
    (hu : u ∈ L) :
    (L.map (fun a => if u = a ∧ v = a then (1 : Nat) else 0)).sum =
      if u = v then 1 else 0 := by
  by_cases huv : u = v
  · subst huv
    simp only [and_self, if_pos rfl]
    simpa using sum_map_ite_one u L hL hu
  · have hfalse : ∀ a : Nat, ¬(u = a ∧ v = a) := by
      rintro a ⟨h1, h2⟩
      exact huv (h1.trans h2.symm)
    simp [hfalse, huv]

/-- The diagonal of the count table sums to the number of matching
(true, predicted) pairs. -/
theorem cm_diag_sum (L : List Nat) (hL : L.Nodup) :
    ∀ pairs : List (Nat × Nat), (∀ p ∈ pairs, p.1 ∈ L) →
      (L.map (fun a => cmCount pairs a a)).sum =
        pairs.countP (fun p => decide (p.1 = p.2)) := by
  intro pairs
  induction pairs with
  | nil =>
      intro _
      simp [cmCount]
  | cons p ps ih =>
      intro h
      have hp := h p (List.mem_cons_self p ps)
      have hps : ∀ q ∈ ps, q.1 ∈ L := fun q hq =>
        h q (List.mem_cons_of_mem p hq)
      have hstep : ∀ a, cmCount (p :: ps) a a =
          cmCount ps a a + (if p.1 = a ∧ p.2 = a then 1 else 0) := by
        intro a
        simp [cmCount, List.countP_cons]
      simp only [hstep, sum_map_add_nat]
      rw [ih hps, diag_cell_sum L hL p.1 p.2 hp, List.countP_cons]
      simp

/-- C5: whenever `evaluate_sen_spec` obtains its four counts on label
vectors of `n` entries each, the accuracy computed from the counts,
`(tp + tn) / n`, equals the accuracy obtained by directly counting
matches between predicted and true labels (the `model.score` value used
in `evaluate_accuracy`). -/
theorem C5_accuracy_consistency (y_true y_pred : List Nat) (n : Nat)
    (h1 : y_true.length = n) (h2 : y_pred.length = n)
    (r : SenSpecResult) (h : evaluate_sen_spec y_true y_pred = some r) :
    ((r.tp : ℚ) + (r.tn : ℚ)) / (n : ℚ) = accuracy_score y_true y_pred := by
  unfold evaluate_sen_spec at h
  split at h
  next tn fp fn tp heq =>
    injection h with h
    subst h
    obtain ⟨a, b, hab2⟩ : ∃ a b, sortedLabels y_true y_pred = [a, b] := by
      have hlen := ravel_cm_length y_true y_pred
      rw [heq] at hlen
      have h4 : (sortedLabels y_true y_pred).length *
          (sortedLabels y_true y_pred).length = 4 := hlen.symm
      exact List.length_eq_two.mp (sq_eq_four h4)
    have hab : a ≠ b := by
      have hnd := sortedLabels_nodup y_true y_pred
      rw [hab2] at hnd
      simpa using (List.nodup_cons.mp hnd).1
    have hravel : ravel (confusion_matrix y_true y_pred) =
        [cmCount (y_true.zip y_pred) a a, cmCount (y_true.zip y_pred) a b,
         cmCount (y_true.zip y_pred) b a,
         cmCount (y_true.zip y_pred) b b] := by
      rw [ravel, confusion_matrix, hab2]
      simp
    rw [hravel] at heq
    simp only [List.cons.injEq, and_true] at heq
    obtain ⟨e1, e2, e3, e4⟩ := heq
    have hmem1 : ∀ p ∈ y_true.zip y_pred, p.1 ∈ [a, b] := by
      intro p hp
      obtain ⟨u, v⟩ := p
      have hu := (List.of_mem_zip hp).1
      rw [← hab2]
      exact mem_sortedLabels.mpr (List.mem_append.mpr (Or.inl hu))
    have hdiag := cm_diag_sum [a, b] (by simp [hab]) (y_true.zip y_pred)
      hmem1
    simp only [List.map_cons, List.map_nil, List.sum_cons,
      List.sum_nil, Nat.add_zero] at hdiag
    have hcount : (y_true.zip y_pred).countP (fun p => decide (p.1 = p.2)) =
        tp + tn := by
      rw [← hdiag, e1, e4]
      omega
    rw [accuracy_score, hcount, h1]
    dsimp only
    push_cast
    ring
  next =>
    simp at h

/-- C5 witness: on the spec's worked scenario (8 samples, tp = 3, tn = 3)
both accuracy computations give 3/4. -/
theorem C5_accuracy_consistency_witness :
    evaluate_sen_spec [1, 1, 1, 1, 0, 0, 0, 0] [1, 1, 0, 1, 0, 0, 1, 0] =
      some ⟨3, 1, 1, 3, npDiv 3 4, npDiv 3 4⟩ ∧
    (((3 : Nat) : ℚ) + ((3 : Nat) : ℚ)) / ((8 : Nat) : ℚ) =
      accuracy_score [1, 1, 1, 1, 0, 0, 0, 0] [1, 1, 0, 1, 0, 0, 1, 0] :=
  ⟨rfl, C5_accuracy_consistency [1, 1, 1, 1, 0, 0, 0, 0]
    [1, 1, 0, 1, 0, 0, 1, 0] 8 rfl rfl
    ⟨3, 1, 1, 3, npDiv 3 4, npDiv 3 4⟩ rfl⟩

/-- C1: on a dataset whose true labels are only 0 and whose predictions are
also only 0 (the typical outcome on such a set), the confusion matrix is
1×1, so the four-way unpacking in `evaluate_sen_spec` fails (Python raises
`ValueError`) before any ratio or warning is produced: the code crashes
instead of reporting the zero-denominator condition. -/
theorem C1_zero_label_unpack_crash :
    evaluate_sen_spec [0, 0] [0, 0] = none := by
  decide

/-- Inversion of a successful `split_dataframe` run: the label columns
exist and are mapped through the label lambda, and the feature tables are
the column-dropped frames. -/
theorem split_dataframe_eq (df df_test : DataFrame) (x : DataFrame)
    (y : List Nat) (xt : DataFrame) (yt : List Nat)
    (h : split_dataframe df df_test = some (x, y, xt, yt)) :
    ∃ ycol ytcol : List Cell,
      getCol df "dementia" = some ycol ∧
      getCol df_test "dementia" = some ytcol ∧
      dropCols df ["dementia", "pauses", "retracing_reform"] = some x ∧
      dropCols df_test ["dementia", "pauses", "retracing_reform"] =
        some xt ∧
      y = ycol.map mapLabel ∧ yt = ytcol.map mapLabel := by
  unfold split_dataframe at h
  split at h
  next => simp at h
  next ycol hy =>
    split at h
    next => simp at h
    next x' hx =>
      split at h
      next => simp at h
      next ytcol hyt =>
        split at h
        next => simp at h
        next xt' hxt =>
          injection h with h
          simp only [Prod.mk.injEq] at h
          obtain ⟨h1, h2, h3, h4⟩ := h
          subst h1
          subst h3
          exact ⟨ycol, ytcol, hy, hyt, hx, hxt, h2.symm, h4.symm⟩

/-- Counting, in a duplicate-free list, the entries that belong to a
duplicate-free sublist of names all present in the list yields the number
of names. -/
theorem countP_mem_of_nodup (l names : List String) (hl : l.Nodup)
    (hn : names.Nodup) (hsub : ∀ s ∈ names, s ∈ l) :
    l.countP (fun s => decide (s ∈ names)) = names.length := by
  rw [List.countP_eq_length_filter]
  have hperm : List.Perm (l.filter (fun s => decide (s ∈ names))) names := by
    rw [List.perm_ext_iff_of_nodup (hl.filter _) hn]
    intro s
    simp only [List.mem_filter, decide_eq_true_eq]
    constructor
    · rintro ⟨_, hs⟩
      exact hs
    · intro hs
      exact ⟨hsub s hs, hs⟩
  exact hperm.length_eq

/-- Dropping the columns named in `names` and counting the columns named
in `names` together account for every column. -/
theorem length_filter_add_countP (l : List (String × List Cell))
    (names : List String) :
    (l.filter (fun c => decide (c.1 ∉ names))).length +
      l.countP (fun c => decide (c.1 ∈ names)) = l.length := by
  induction l with
  | nil => simp
  | cons c l ih =>
      by_cases hc : c.1 ∈ names
      · simp [List.filter_cons, List.countP_cons, decide_not, hc] at ih ⊢
        omega
      · simp [List.filter_cons, List.countP_cons, decide_not, hc] at ih ⊢
        omega

/-- C7: when `split_dataframe` succeeds on a table with duplicate-free
column names (so the `dementia`, `pauses`, `retracing_reform` columns are
present), the produced feature table has exactly three columns fewer than
the original: the label column plus the two known-missing-value
columns. -/
theorem C7_feature_column_count (df df_test : DataFrame) (x : DataFrame)
    (y : List Nat) (xt : DataFrame) (yt : List Nat)
    (hnd : (df.cols.map (fun c => c.1)).Nodup)
    (h : split_dataframe df df_test = some (x, y, xt, yt)) :
    x.cols.length + 3 = df.cols.length := by
  obtain ⟨ycol, ytcol, hy, hyt, hx, hxt, hym, hytm⟩ :=
    split_dataframe_eq df df_test x y xt yt h
  unfold dropCols at hx
  split at hx
  next hall =>
    injection hx with hx
    subst hx
    dsimp only
    have hsub : ∀ s ∈ ["dementia", "pauses", "retracing_reform"],
        s ∈ df.cols.map (fun c => c.1) := by
      intro s hs
      have hany := (List.all_eq_true.mp hall) s hs
      obtain ⟨c, hc, hcs⟩ := List.any_eq_true.mp hany
      have hce : c.1 = s := of_decide_eq_true hcs
      exact hce ▸ List.mem_map_of_mem _ hc
    have hcount : df.cols.countP
        (fun c => decide (c.1 ∈ ["dementia", "pauses", "retracing_reform"]))
          = 3 := by
      have hm := List.countP_map
        (fun s => decide (s ∈ ["dementia", "pauses", "retracing_reform"]))
        (fun c : String × List Cell => c.1) (l := df.cols)
      have h3 := countP_mem_of_nodup (df.cols.map (fun c => c.1))
        ["dementia", "pauses", "retracing_reform"] hnd (by decide) hsub
      rw [hm] at h3
      simpa [Function.comp] using h3
    have htot := length_filter_add_countP df.cols
      ["dementia", "pauses", "retracing_reform"]
    rw [hcount] at htot
    exact htot
  next =>
    simp at hx

/-- C7 witness: on a concrete four-column table the feature table keeps
exactly one column. -/
theorem C7_feature_column_count_witness :
    (C7df.cols.map (fun c => c.1)).Nodup ∧
    split_dataframe C7df C7dft =
      some (⟨[("age", [some "70", some "65"])]⟩, [1, 0],
        ⟨[("age", [some "80"])]⟩, [0]) ∧
    (DataFrame.mk [("age", [some "70", some "65"])]).cols.length + 3 =
      C7df.cols.length :=
  ⟨by decide, by decide, C7_feature_column_count C7df C7dft
    ⟨[("age", [some "70", some "65"])]⟩ [1, 0]
    ⟨[("age", [some "80"])]⟩ [0] (by decide) (by decide)⟩

/-- C9: in `split_dataframe` the label mapping sends the cell `'Y'` to 1
and every other cell — including any unexpected string and the missing
value — to 0, and it is this mapping that produces both the train and the
test label vectors. -/
theorem C9_label_mapping (df df_test : DataFrame) (x : DataFrame)
    (y : List Nat) (xt : DataFrame) (yt : List Nat) (col colt : List Cell)
    (hc : getCol df "dementia" = some col)
    (hct : getCol df_test "dementia" = some colt)
    (h : split_dataframe df df_test = some (x, y, xt, yt)) :
    y = col.map mapLabel ∧ yt = colt.map mapLabel ∧
    mapLabel (some "Y") = 1 ∧
    ∀ v : Cell, v ≠ some "Y" → mapLabel v = 0 := by
  obtain ⟨ycol, ytcol, hy, hyt, hx, hxt, hym, hytm⟩ :=
    split_dataframe_eq df df_test x y xt yt h
  rw [hc] at hy
  rw [hct] at hyt
  injection hy with hy
  injection hyt with hyt
  subst hy
  subst hyt
  refine ⟨hym, hytm, rfl, ?_⟩
  intro v hv
  rw [mapLabel, if_neg hv]

/-- C9 witness: on the concrete tables, `'Y'` maps to 1 and `'N'` maps to
0 in both label vectors. -/
theorem C9_label_mapping_witness :
    getCol C7df "dementia" = some [some "Y", some "N"] ∧
    getCol C7dft "dementia" = some [some "N"] ∧
    split_dataframe C7df C7dft =
      some (⟨[("age", [some "70", some "65"])]⟩, [1, 0],
        ⟨[("age", [some "80"])]⟩, [0]) ∧
    ([1, 0] = [some "Y", some "N"].map mapLabel ∧
      [0] = [some "N"].map mapLabel ∧
      mapLabel (some "Y") = 1 ∧
      ∀ v : Cell, v ≠ some "Y" → mapLabel v = 0) :=
  ⟨rfl, rfl, by decide, C9_label_mapping C7df C7dft
    ⟨[("age", [some "70", some "65"])]⟩ [1, 0]
    ⟨[("age", [some "80"])]⟩ [0] [some "Y", some "N"] [some "N"]
    rfl rfl (by decide)⟩

/-- Label axis when both labels 0 and 1 occur in binary label vectors. -/
theorem sortedLabels_binary_both (y_true y_pred : List Nat)
    (hbin : ∀ v ∈ y_true ++ y_pred, v = 0 ∨ v = 1)
    (h0 : 0 ∈ y_true ++ y_pred) (h1 : 1 ∈ y_true ++ y_pred) :
    sortedLabels y_true y_pred = [0, 1] := by
  have hperm : List.Perm ((y_true ++ y_pred).dedup) [0, 1] := by
    rw [List.perm_ext_iff_of_nodup (List.nodup_dedup _) (by decide)]
    intro v
    rw [List.mem_dedup]
    constructor
    · intro hv
      rcases hbin v hv with rfl | rfl
      · simp
      · simp
    · intro hv
      rcases List.mem_cons.mp hv with rfl | hv'
      · exact h0
      · rcases List.mem_cons.mp hv' with rfl | hv''
        · exact h1
        · simp at hv''
  have hp2 : List.Perm (sortedLabels y_true y_pred) [0, 1] :=
    (List.perm_insertionSort _ _).trans hperm
  exact List.eq_of_perm_of_sorted hp2
    (List.sorted_insertionSort _ _) (by decide)

/-- Label axis when a single label value occurs in nonempty label
vectors. -/
theorem sortedLabels_single (y_true y_pred : List Nat) (c : Nat)
    (hne : y_true ++ y_pred ≠ [])
    (hall : ∀ v ∈ y_true ++ y_pred, v = c) :
    sortedLabels y_true y_pred = [c] := by
  have hc : c ∈ y_true ++ y_pred := by
    obtain ⟨w, hw⟩ := List.exists_mem_of_ne_nil _ hne
    exact (hall w hw) ▸ hw
  have hperm : List.Perm ((y_true ++ y_pred).dedup) [c] := by
    rw [List.perm_ext_iff_of_nodup (List.nodup_dedup _) (by simp)]
    intro v
    rw [List.mem_dedup]
    constructor
    · intro hv
      simp [hall v hv]
    · intro hv
      simp only [List.mem_singleton] at hv
      exact hv ▸ hc
  have hp2 : List.Perm (sortedLabels y_true y_pred) [c] :=
    (List.perm_insertionSort _ _).trans hperm
  exact List.eq_of_perm_of_sorted hp2
    (List.sorted_insertionSort _ _) (by simp)

/-- A raveled confusion matrix that does not have exactly four entries
makes the four-way unpacking fail. -/
theorem eval_none_of_not_four (y_true y_pred : List Nat)
    (h : (ravel (confusion_matrix y_true y_pred)).length ≠ 4) :
    evaluate_sen_spec y_true y_pred = none := by
  unfold evaluate_sen_spec
  split
  next tn fp fn tp heq =>
    exfalso
    apply h
    rw [heq]
    rfl
  next => rfl

/-- C10: for binary label vectors, the four-way unpacking in
`evaluate_sen_spec` succeeds exactly when both label values occur in the
union of the true and predicted vectors; when only one occurs, the
confusion matrix is 1×1 (its ravel has a single entry) and the unpacking
step fails before any ratio is computed. -/
theorem C10_unpack_needs_both_labels (y_true y_pred : List Nat)
    (hbin : ∀ v ∈ y_true ++ y_pred, v = 0 ∨ v = 1) :
    ((evaluate_sen_spec y_true y_pred).isSome ↔
      (0 ∈ y_true ++ y_pred ∧ 1 ∈ y_true ++ y_pred)) ∧
    ((y_true ++ y_pred ≠ [] ∧
        ¬(0 ∈ y_true ++ y_pred ∧ 1 ∈ y_true ++ y_pred)) →
      (ravel (confusion_matrix y_true y_pred)).length = 1) := by
  have hshape : y_true ++ y_pred ≠ [] →
      ¬(0 ∈ y_true ++ y_pred ∧ 1 ∈ y_true ++ y_pred) →
      ∃ c, sortedLabels y_true y_pred = [c] := by
    intro hne hnot
    by_cases h0 : 0 ∈ y_true ++ y_pred
    · refine ⟨0, sortedLabels_single y_true y_pred 0 hne ?_⟩
      intro v hv
      rcases hbin v hv with rfl | rfl
      · rfl
      · exact absurd ⟨h0, hv⟩ hnot
    · refine ⟨1, sortedLabels_single y_true y_pred 1 hne ?_⟩
      intro v hv
      rcases hbin v hv with rfl | rfl
      · exact absurd hv h0
      · rfl
  constructor
  · constructor
    · intro hsome
      by_contra hnot
      by_cases hne : y_true ++ y_pred = []
      · have hlab : sortedLabels y_true y_pred = [] := by
          unfold sortedLabels
          rw [hne]
          rfl
        have hnone := eval_none_of_not_four y_true y_pred
          (by rw [ravel_cm_length, hlab]; simp)
        rw [hnone] at hsome
        simp at hsome
      · obtain ⟨c, hc⟩ := hshape hne hnot
        have hnone := eval_none_of_not_four y_true y_pred
          (by rw [ravel_cm_length, hc]; simp)
        rw [hnone] at hsome
        simp at hsome
    · rintro ⟨h0, h1⟩
      have hlab := sortedLabels_binary_both y_true y_pred hbin h0 h1
      have hravel : ravel (confusion_matrix y_true y_pred) =
          [cmCount (y_true.zip y_pred) 0 0,
           cmCount (y_true.zip y_pred) 0 1,
           cmCount (y_true.zip y_pred) 1 0,
           cmCount (y_true.zip y_pred) 1 1] := by
        rw [ravel, confusion_matrix, hlab]
        simp
      unfold evaluate_sen_spec
      rw [hravel]
      rfl
  · rintro ⟨hne, hnot⟩
    obtain ⟨c, hc⟩ := hshape hne hnot
    rw [ravel_cm_length, hc]
    rfl

/-- C10 witness: with true and predicted labels all 0, the ravel has one
entry and the unpacking fails. -/
theorem C10_unpack_needs_both_labels_witness :
    (∀ v ∈ ([0] : List Nat) ++ [0], v = 0 ∨ v = 1) ∧
    (((evaluate_sen_spec [0] [0]).isSome ↔
        ((0 : Nat) ∈ ([0] : List Nat) ++ [0] ∧
          (1 : Nat) ∈ ([0] : List Nat) ++ [0])) ∧
      ((([0] : List Nat) ++ [0] ≠ [] ∧
          ¬((0 : Nat) ∈ ([0] : List Nat) ++ [0] ∧
            (1 : Nat) ∈ ([0] : List Nat) ++ [0])) →
        (ravel (confusion_matrix [0] [0])).length = 1)) :=
  ⟨by decide, C10_unpack_needs_both_labels [0] [0] (by decide)⟩
